import Mathlib

/-!
Verification development for the AUSampler microtonal tuning engine and
note-state manager, shallowly embedded from `src/AUSampler.js`.

Conventions of the embedding:
- JavaScript numbers holding scale ratios are idealised as real numbers.
- The JavaScript `%` operator is the truncated remainder, `Int.tmod`.
- `Math.floor(a / b)` on integer-valued operands with `b > 0` is floor
  division, `Int.fdiv`.
- Out-of-range array reads (which cannot occur on the paths proved here)
  are rendered by `List.getD` with default `0`.
-/

namespace AUSampler

/-- Embedding of the source helper `mod(n, m) = ((n % m) + m) % m`
(src/AUSampler.js:375-377), with the JavaScript `%` rendered as the
truncated remainder `Int.tmod`. -/
def jsmod (n m : ℤ) : ℤ := Int.tmod (Int.tmod n m + m) m

/-- Embedding of `calculatePitchRatio(midiNote)` (src/AUSampler.js:243-248):
`steps = midiNote - baseNote`, `octaves = Math.floor(steps / scaleRatios.length)`,
`scaleIndex = mod(steps, scaleRatios.length)`, and the result is
`scaleRatios[scaleIndex] * Math.pow(2, octaves)`.  The mutable globals
`scaleRatios` and `baseNote` are passed explicitly. -/
noncomputable def calculatePitchRatio (scaleRatios : List ℝ) (baseNote midiNote : ℤ) : ℝ :=
  let steps := midiNote - baseNote
  let octaves := Int.fdiv steps (scaleRatios.length : ℤ)
  let scaleIndex := jsmod steps (scaleRatios.length : ℤ)
  scaleRatios.getD scaleIndex.toNat 0 * (2 : ℝ) ^ octaves

/-- The resolver exactly as the spec words it (spec §4.2): the period is
`ratios.length - 1`, the per-period multiplier is the table's last entry
`ratios[period]`, and the scale index is the mathematical modulo
`((steps mod period) + period) mod period`.  Stated for comparison with
`calculatePitchRatio`, which is the embedding of the source. -/
noncomputable def specResolve (ratios : List ℝ) (baseIndex noteIndex : ℤ) : ℝ :=
  let steps := noteIndex - baseIndex
  let period : ℤ := (ratios.length : ℤ) - 1
  let octaves := Int.fdiv steps period
  let scaleIndex := (steps % period + period) % period
  ratios.getD scaleIndex.toNat 0 * (ratios.getD (ratios.length - 1) 0) ^ octaves

/-- The spec's resolver formula amended to what the source computes: the
period is the full table length and the per-period multiplier is a fixed
`2`. -/
noncomputable def specResolveFullLen (ratios : List ℝ) (baseIndex noteIndex : ℤ) : ℝ :=
  let steps := noteIndex - baseIndex
  let period : ℤ := (ratios.length : ℤ)
  let octaves := Int.fdiv steps period
  let scaleIndex := (steps % period + period) % period
  ratios.getD scaleIndex.toNat 0 * (2 : ℝ) ^ octaves

lemma neg_lt_tmod (n : ℤ) {m : ℤ} (hm : 0 < m) : -m < Int.tmod n m := by
  cases n with
  | ofNat k =>
      have h0 : (0 : ℤ) ≤ Int.tmod (Int.ofNat k) m :=
        Int.tmod_nonneg m (Int.ofNat_nonneg k)
      linarith
  | negSucc k =>
      cases m with
      | ofNat j =>
          have hj : 0 < j := Int.ofNat_pos.mp hm
          have h1 : Int.tmod (Int.negSucc k) (Int.ofNat j)
              = -(((k + 1) % j : ℕ) : ℤ) := rfl
          rw [h1]
          have h2 : (k + 1) % j < j := Nat.mod_lt _ hj
          have h3 : (((k + 1) % j : ℕ) : ℤ) < (Int.ofNat j) := by
            show (Int.ofNat ((k + 1) % j)) < Int.ofNat j
            exact Int.ofNat_lt.mpr h2
          simpa using Int.neg_lt_neg h3
      | negSucc j =>
          exact absurd hm (lt_asymm (Int.negSucc_lt_zero j))

lemma jsmod_eq_emod (n : ℤ) {m : ℤ} (hm : 0 < m) : jsmod n m = n % m := by
  unfold jsmod
  have h0 : 0 ≤ Int.tmod n m + m := by
    have := neg_lt_tmod n hm
    linarith
  rw [Int.tmod_eq_emod h0 (le_of_lt hm), Int.tmod_def]
  have heq : n - m * n.tdiv m + m = n + m * (1 - n.tdiv m) := by ring
  rw [heq, Int.add_mul_emod_self_left]

/-- C1: the spec claims the resolved pitch ratio is
`ratios[scaleIndex] * (ratios[period])^octaves` with
`period = ratios.length - 1`.  The source instead uses the full table
length as modulus and a fixed factor of 2: on the table `[1, 3/2, 2]`
with base index 0, note index 3, the code yields 2 while the spec's
formula yields 3. -/
theorem c1_counterexample :
    2 ≤ ([1, 3/2, 2] : List ℝ).length ∧
    calculatePitchRatio [1, 3/2, 2] 0 3 = 2 ∧
    specResolve [1, 3/2, 2] 0 3 = 3 ∧
    calculatePitchRatio [1, 3/2, 2] 0 3 ≠ specResolve [1, 3/2, 2] 0 3 := by
  have hfd1 : Int.fdiv 3 3 = 1 := by decide
  have hfd2 : Int.fdiv 3 2 = 1 := by decide
  have hm1 : jsmod 3 3 = 0 := by decide
  have hcode : calculatePitchRatio [1, 3/2, 2] 0 3 = 2 := by
    simp only [calculatePitchRatio]
    norm_num [hfd1, hm1]
  have hspec : specResolve [1, 3/2, 2] 0 3 = 3 := by
    simp only [specResolve]
    norm_num [hfd2]
  refine ⟨by norm_num, hcode, hspec, ?_⟩
  rw [hcode, hspec]
  norm_num

/-- C1 (amended): for every table with at least 2 ratios, the resolved
pitch ratio equals `ratios[scaleIndex] * 2^octaves` where the modulus and
divisor are the full table length (`period = ratios.length`),
`octaves = floor(steps / period)`, and
`scaleIndex = ((steps mod period) + period) mod period` with mathematical
modulo. -/
theorem c1_amended (ratios : List ℝ) (baseIndex noteIndex : ℤ)
    (h : 2 ≤ ratios.length) :
    calculatePitchRatio ratios baseIndex noteIndex
      = specResolveFullLen ratios baseIndex noteIndex := by
  have hL : (0 : ℤ) < (ratios.length : ℤ) := by exact_mod_cast Nat.lt_of_lt_of_le two_pos h
  simp only [calculatePitchRatio, specResolveFullLen]
  rw [jsmod_eq_emod _ hL]
  have h1 : ((noteIndex - baseIndex) % (ratios.length : ℤ) + (ratios.length : ℤ))
        % (ratios.length : ℤ) = (noteIndex - baseIndex) % (ratios.length : ℤ) := by
    have h2 : (noteIndex - baseIndex) % (ratios.length : ℤ) + (ratios.length : ℤ)
        = (noteIndex - baseIndex) % (ratios.length : ℤ) + (ratios.length : ℤ) * 1 := by ring
    rw [h2, Int.add_mul_emod_self_left, Int.emod_emod_of_dvd _ dvd_rfl]
  rw [h1]

/-- C1 (amended) witness at the table `[1, 3/2, 2]`, base index 0,
note index 3. -/
theorem c1_amended_witness :
    2 ≤ ([1, 3/2, 2] : List ℝ).length ∧
    calculatePitchRatio [1, 3/2, 2] 0 3 = specResolveFullLen [1, 3/2, 2] 0 3 :=
  ⟨by norm_num, c1_amended [1, 3/2, 2] 0 3 (by norm_num)⟩

/-- C2: the spec's octave-equivalence law with `period = ratios.length - 1`
and `period_ratio = ratios[period]` fails on the code: on the table
`[1, 3/2, 2]` (period 2, period ratio 2) with base index 0 and `k = 2`,
the code resolves note `0 + 2*2` to 3 while the law demands
`resolve(0) * 2^2 = 4`. -/
theorem c2_counterexample :
    2 ≤ ([1, 3/2, 2] : List ℝ).length ∧
    calculatePitchRatio [1, 3/2, 2] 0 (0 + 2 * 2) = 3 ∧
    calculatePitchRatio [1, 3/2, 2] 0 0 * (([1, 3/2, 2] : List ℝ).getD 2 0) ^ (2 : ℤ) = 4 ∧
    calculatePitchRatio [1, 3/2, 2] 0 (0 + 2 * 2)
      ≠ calculatePitchRatio [1, 3/2, 2] 0 0 * (([1, 3/2, 2] : List ℝ).getD 2 0) ^ (2 : ℤ) := by
  have hfd : Int.fdiv 4 3 = 1 := by decide
  have hm4 : jsmod 4 3 = 1 := by decide
  have hfd0 : Int.fdiv 0 3 = 0 := by decide
  have hm0 : jsmod 0 3 = 0 := by decide
  have hlhs : calculatePitchRatio [1, 3/2, 2] 0 (0 + 2 * 2) = 3 := by
    simp only [calculatePitchRatio]
    norm_num [hfd, hm4]
  have hbase : calculatePitchRatio [1, 3/2, 2] 0 0 = 1 := by
    simp only [calculatePitchRatio]
    norm_num [hfd0, hm0]
  have hrhs : calculatePitchRatio [1, 3/2, 2] 0 0 * (([1, 3/2, 2] : List ℝ).getD 2 0) ^ (2 : ℤ) = 4 := by
    rw [hbase]
    norm_num
  refine ⟨by norm_num, hlhs, hrhs, ?_⟩
  rw [hlhs, hrhs]
  norm_num

/-- C2 (amended): for every table with at least 2 ratios, every base
index and every integer `k`,
`resolve(baseIndex + k * L) = resolve(baseIndex) * 2^k` where `L` is the
full table length (the code's period) and the repeat factor is the fixed
2 the code multiplies by. -/
theorem c2_amended (ratios : List ℝ) (baseIndex k : ℤ)
    (h : 2 ≤ ratios.length) :
    calculatePitchRatio ratios baseIndex (baseIndex + k * (ratios.length : ℤ))
      = calculatePitchRatio ratios baseIndex baseIndex * (2 : ℝ) ^ k := by
  have hL : (0 : ℤ) < (ratios.length : ℤ) := by exact_mod_cast Nat.lt_of_lt_of_le two_pos h
  have hLne : (ratios.length : ℤ) ≠ 0 := ne_of_gt hL
  simp only [calculatePitchRatio]
  have hsteps : baseIndex + k * (ratios.length : ℤ) - baseIndex = k * (ratios.length : ℤ) := by
    ring
  rw [hsteps, sub_self]
  rw [Int.mul_fdiv_cancel _ hLne, Int.zero_fdiv]
  rw [jsmod_eq_emod _ hL, jsmod_eq_emod _ hL]
  rw [Int.mul_emod_left, Int.zero_emod]
  rw [zpow_zero, mul_one]

/-- C2 (amended) witness at the table `[1, 3/2, 2]`, base index 0,
`k = 2`. -/
theorem c2_amended_witness :
    2 ≤ ([1, 3/2, 2] : List ℝ).length ∧
    calculatePitchRatio [1, 3/2, 2] 0 (0 + 2 * ([1, 3/2, 2] : List ℝ).length)
      = calculatePitchRatio [1, 3/2, 2] 0 0 * (2 : ℝ) ^ (2 : ℤ) :=
  ⟨by norm_num, c2_amended [1, 3/2, 2] 0 2 (by norm_num)⟩

/-- C8: for every table whose ratio list begins with 1 and every base
index, resolving the base index itself yields the unison ratio 1. -/
theorem c8_base_note_resolves_to_one (ratios : List ℝ) (baseIndex : ℤ)
    (h : ratios.head? = some 1) :
    calculatePitchRatio ratios baseIndex baseIndex = 1 := by
  cases ratios with
  | nil => simp at h
  | cons a t =>
      have ha : a = 1 := by simpa using h
      have hL : (0 : ℤ) < ((a :: t).length : ℤ) := by
        simp only [List.length_cons]
        positivity
      simp only [calculatePitchRatio, sub_self]
      rw [Int.zero_fdiv, jsmod_eq_emod _ hL, Int.zero_emod]
      simp [ha]

/-- C8 witness at the table `[1, 3/2, 2]`, base index 60. -/
theorem c8_witness :
    ([1, 3/2, 2] : List ℝ).head? = some 1 ∧
    calculatePitchRatio [1, 3/2, 2] 60 60 = 1 :=
  ⟨rfl, c8_base_note_resolves_to_one [1, 3/2, 2] 60 rfl⟩

/-! ## The scale-file pipeline

JavaScript strings are modelled as their character lists, and the string
primitives the source uses (`split` on a one-character separator, `trim`,
`startsWith`, `endsWith`, `includes`) are given structurally recursive
models so that concrete runs reduce in the kernel. -/

/-- Model of `String.prototype.split` with a one-character separator (the
source only splits on the single characters `\n`, `!` and `/`). -/
def splitOnChar (sep : Char) : List Char → List (List Char)
  | [] => [[]]
  | c :: cs =>
    let r := splitOnChar sep cs
    if c = sep then [] :: r
    else (c :: r.headD []) :: r.tail

/-- Model of `String.prototype.trim`: strip leading and trailing
whitespace. -/
def jsTrim (cs : List Char) : List Char :=
  ((cs.dropWhile Char.isWhitespace).reverse.dropWhile Char.isWhitespace).reverse

/-- Model of `line.startsWith('!')`. -/
def startsWithBang (cs : List Char) : Bool :=
  match cs with
  | [] => false
  | c :: _ => c = '!'

/-- Model of `file.name.endsWith('.scl')`. -/
def endsWithScl (cs : List Char) : Bool :=
  decide ((cs.reverse.take 4).reverse = ['.', 's', 'c', 'l'])

/-- Model of `line.includes('/')` for a single character. -/
def containsChar (c : Char) (cs : List Char) : Bool :=
  cs.any (fun d => d = c)

/-- Numeric value of a list of decimal digit characters. -/
def digitsVal (cs : List Char) : ℕ :=
  cs.foldl (fun a c => 10 * a + (c.toNat - 48)) 0

/-- Model of the JavaScript `parseInt` on its decimal fragment: optional
sign, then the longest prefix of decimal digits; `none` stands for `NaN`
(no digits at all). -/
def jsParseInt (s : List Char) : Option ℤ :=
  let sign : ℤ := match s with
    | '-' :: _ => -1
    | _ => 1
  let rest := match s with
    | '-' :: t => t
    | '+' :: t => t
    | t => t
  let ds := rest.takeWhile Char.isDigit
  if ds.isEmpty then none else some (sign * (digitsVal ds : ℤ))

/-- Exact value of a parsed decimal literal, `mant / 10 ^ fracLen`
(kept unreduced in integers so that concrete runs reduce in the
kernel). -/
structure DecNum where
  mant : ℤ
  fracLen : ℕ
deriving DecidableEq

/-- Idealised numeric value of a parsed decimal literal. -/
noncomputable def DecNum.toReal (d : DecNum) : ℝ :=
  (d.mant : ℝ) / 10 ^ d.fracLen

/-- Model of the JavaScript `parseFloat` on its plain decimal fragment
(optional sign, integer digits, optional fraction digits; no exponent,
which no Scala scale line uses); `none` stands for `NaN`. -/
def jsParseFloat (s : List Char) : Option DecNum :=
  let sign : ℤ := match s with
    | '-' :: _ => -1
    | _ => 1
  let rest := match s with
    | '-' :: t => t
    | '+' :: t => t
    | t => t
  let intDs := rest.takeWhile Char.isDigit
  let rest2 := rest.drop intDs.length
  let fracDs := match rest2 with
    | '.' :: t => t.takeWhile Char.isDigit
    | _ => []
  if intDs.isEmpty && fracDs.isEmpty then none
  else some ⟨sign * (digitsVal intDs * 10 ^ fracDs.length + digitsVal fracDs : ℕ),
             fracDs.length⟩

/-- Symbolic value of one scale-table entry: the source stores the
JavaScript numbers `p/q` (ratio lines, unison `1` and the appended octave
`2`) and `2^(c/1200)` (cents lines); keeping the tag and the parsed
decimals makes the pipeline computable, and `ScaleValue.toReal` is the
idealised numeric value. -/
inductive ScaleValue where
  | ratio (p q : DecNum)
  | cents (c : DecNum)
deriving DecidableEq

/-- Idealised numeric value of a stored scale-table entry. -/
noncomputable def ScaleValue.toReal : ScaleValue → ℝ
  | .ratio p q => p.toReal / q.toReal
  | .cents c => (2 : ℝ) ^ (c.toReal / 1200)

/-- The stored entry for an integer-valued JavaScript number (the
prepended unison `1` and the appended octave `2`). -/
def ScaleValue.ofInt (n : ℤ) : ScaleValue :=
  .ratio ⟨n, 0⟩ ⟨1, 0⟩

/-- Decidable rendering of the source's numeric comparison
`scaleRatios[scaleRatios.length - 1] !== 2` on stored entries, by integer
cross-multiplication (`(p/10^a)/(q/10^b) = 2` iff `p*10^b = 2*q*10^a`
whenever the stored denominator is nonzero, which the parser
guarantees). -/
def ScaleValue.isTwo : ScaleValue → Bool
  | .ratio p q => decide (p.mant * 10 ^ q.fracLen = 2 * q.mant * 10 ^ p.fracLen)
  | .cents c => decide (c.mant = 1200 * 10 ^ c.fracLen)

/-- Embedding of `parseScalaRatio(line)` (src/AUSampler.js:173-195):
strip an inline `!` comment and trim; an empty line is invalid; a line
containing `/` parses as `num/denom` with both parts `parseFloat`ed and a
zero denominator rejected; otherwise the line parses as a cents value. -/
def parseScalaRatio (line : List Char) : Option ScaleValue :=
  let l := jsTrim ((splitOnChar '!' line).headD [])
  if l = [] then none
  else if containsChar '/' l then
    let parts := splitOnChar '/' l
    match jsParseFloat (jsTrim (parts.getD 0 [])), jsParseFloat (jsTrim (parts.getD 1 [])) with
    | some p, some q => if q.mant ≠ 0 then some (.ratio p q) else none
    | _, _ => none
  else
    match jsParseFloat l with
    | some c => some (.cents c)
    | none => none

/-- The mutable globals of the scale pipeline: the ratio table and the
`scaleLoaded` flag. -/
structure SclState where
  scaleRatios : List ScaleValue
  scaleLoaded : Bool
deriving DecidableEq

/-- The table built by `initializeDefaultScale` (src/AUSampler.js:80-87)
in symbolic form: unison, `2^(i/12) = 2^(100*i/1200)` for `i = 1..11`,
octave. -/
def defaultScaleRatios : List ScaleValue :=
  ScaleValue.ofInt 1 ::
    ((List.range' 1 11).map fun i => ScaleValue.cents ⟨(100 * i : ℕ), 0⟩) ++ [ScaleValue.ofInt 2]

/-- Embedding of `handleSclFile` (src/AUSampler.js:93-166), modelling the
synchronous effect of one `.scl` upload: the extension check, the eager
reset `scaleRatios = []`, and the `reader.onload` body run on the file's
text.  Each early `return` of the source leaves the state as it is at
that point. -/
def handleSclFile (st : SclState) (fileName content : List Char) : SclState :=
  if ¬ endsWithScl fileName then st
  else
    let st1 : SclState := { st with scaleRatios := [] }
    let lines := ((splitOnChar '\n' content).map jsTrim).filter
      (fun l => !(l.isEmpty) && !(startsWithBang l))
    if lines.length < 2 then st1
    else
      match jsParseInt (lines.getD 1 []) with
      | none => st1
      | some numNotes =>
        if numNotes ≤ 0 then st1
        else
          let parsed := (lines.drop 2).filterMap parseScalaRatio
          let ratios1 := ScaleValue.ofInt 1 :: parsed
          let ratios2 :=
            if !((ratios1.getLast?.getD (ScaleValue.ofInt 1)).isTwo)
            then ratios1 ++ [ScaleValue.ofInt 2] else ratios1
          if ratios2.length > 1 then { scaleRatios := ratios2, scaleLoaded := true }
          else { scaleRatios := defaultScaleRatios, scaleLoaded := true }

/-- C3: the spec demands that a failed scale load leave the previous (or
default) table fully usable.  The source instead resets `scaleRatios` to
`[]` before validation, so the `Invalid scale file format` early return
leaves zero usable ratios (with `scaleLoaded` still true): uploading a
one-line `.scl` file over the loaded default table empties the table. -/
theorem c3_failed_load_empties_table :
    (handleSclFile ⟨defaultScaleRatios, true⟩ "scale.scl".data "My scale".data).scaleRatios = []
    ∧ (handleSclFile ⟨defaultScaleRatios, true⟩ "scale.scl".data "My scale".data).scaleLoaded
        = true := by
  constructor <;> decide

/-- C4: on a definition whose data lines all fail to parse, the spec
demands `ParseError(NoValidRatios)` and a fall back to the default table.
The source instead accepts the table `[1, 2]` built from the
auto-prepended unison and auto-appended octave and marks the scale
loaded: the `No valid ratios found` fallback branch is unreachable
because the length check runs after those two entries are added. -/
theorem c4_no_valid_ratios_still_loads :
    handleSclFile ⟨defaultScaleRatios, true⟩ "scale.scl".data "My scale\n1\nabc".data
      = ⟨[ScaleValue.ofInt 1, ScaleValue.ofInt 2], true⟩ := by
  decide

/-! ## The default scale -/

/-- Embedding of `initializeDefaultScale` (src/AUSampler.js:80-87):
`scaleRatios = [1]`, then push `Math.pow(2, i/12)` for `i = 1..11`, then
push `2`; JavaScript numbers idealised as reals. -/
noncomputable def initializeDefaultScale : List ℝ :=
  1 :: ((List.range' 1 11).map fun (i : ℕ) => (2 : ℝ) ^ ((i : ℝ) / 12)) ++ [2]

lemma rpow_two_left_cancel {y z : ℝ} (h : (2 : ℝ) ^ y = (2 : ℝ) ^ z) : y = z := by
  have h1 := (Real.rpow_le_rpow_left_iff (by norm_num : (1 : ℝ) < 2)).mp h.le
  have h2 := (Real.rpow_le_rpow_left_iff (by norm_num : (1 : ℝ) < 2)).mp h.ge
  linarith

/-- Fidelity of the decidable octave test on ratio entries: whenever the
stored denominator is nonzero (which the parser guarantees), `isTwo`
agrees with the idealised numeric comparison against 2. -/
lemma isTwo_ratio_iff (p q : DecNum) (hq : q.mant ≠ 0) :
    ((ScaleValue.ratio p q).isTwo = true) ↔ ((ScaleValue.ratio p q).toReal = 2) := by
  have h10a : ((10 : ℝ) ^ p.fracLen) ≠ 0 := by positivity
  have h10b : ((10 : ℝ) ^ q.fracLen) ≠ 0 := by positivity
  have hqm : ((q.mant : ℝ)) ≠ 0 := Int.cast_ne_zero.mpr hq
  simp only [ScaleValue.isTwo, ScaleValue.toReal, DecNum.toReal, decide_eq_true_eq]
  constructor
  · intro h
    have hr : (p.mant : ℝ) * 10 ^ q.fracLen = 2 * (q.mant : ℝ) * 10 ^ p.fracLen := by
      exact_mod_cast h
    field_simp
    linarith
  · intro h
    have hr : (p.mant : ℝ) * 10 ^ q.fracLen = 2 * (q.mant : ℝ) * 10 ^ p.fracLen := by
      field_simp at h
      linarith
    exact_mod_cast hr

/-- Fidelity of the decidable octave test on cents entries: `isTwo`
agrees with the idealised numeric comparison against 2. -/
lemma isTwo_cents_iff (c : DecNum) :
    ((ScaleValue.cents c).isTwo = true) ↔ ((ScaleValue.cents c).toReal = 2) := by
  have h10 : ((10 : ℝ) ^ c.fracLen) ≠ 0 := by positivity
  simp only [ScaleValue.isTwo, ScaleValue.toReal, DecNum.toReal, decide_eq_true_eq]
  constructor
  · intro h
    have hc : (c.mant : ℝ) = 1200 * 10 ^ c.fracLen := by exact_mod_cast h
    have hx : (c.mant : ℝ) / 10 ^ c.fracLen / 1200 = 1 := by
      rw [hc]
      field_simp
    rw [hx, Real.rpow_one]
  · intro h
    have h2 : (2 : ℝ) ^ ((c.mant : ℝ) / 10 ^ c.fracLen / 1200) = (2 : ℝ) ^ (1 : ℝ) := by
      rw [Real.rpow_one]
      exact h
    have hx := rpow_two_left_cancel h2
    have hc : (c.mant : ℝ) = 1200 * 10 ^ c.fracLen := by
      field_simp at hx
      linarith
    exact_mod_cast hc

/-- Every ratio entry the parser stores has a nonzero denominator (the
source's `denom !== 0` guard), so `isTwo_ratio_iff` applies to every
stored ratio. -/
lemma parseScalaRatio_denom_ne_zero {line : List Char} {p q : DecNum}
    (h : parseScalaRatio line = some (ScaleValue.ratio p q)) : q.mant ≠ 0 := by
  simp only [parseScalaRatio] at h
  split at h
  · exact absurd h (by simp)
  · split at h
    · split at h
      · split at h
        · rename_i hq
          simp only [Option.some.injEq, ScaleValue.ratio.injEq] at h
          rw [← h.2]
          exact hq
        · exact absurd h (by simp)
      · exact absurd h (by simp)
    · split at h
      · exact absurd h (by simp)
      · exact absurd h (by simp)

lemma ofInt_toReal (n : ℤ) : (ScaleValue.ofInt n).toReal = (n : ℝ) := by
  simp [ScaleValue.ofInt, ScaleValue.toReal, DecNum.toReal]

lemma cents_nat_toReal (i : ℕ) :
    (ScaleValue.cents ⟨(100 * i : ℕ), 0⟩).toReal = (2 : ℝ) ^ ((i : ℝ) / 12) := by
  simp only [ScaleValue.toReal, DecNum.toReal]
  norm_num
  congr 1
  ring

/-- The symbolic default table denotes exactly the numeric table the
source's `initializeDefaultScale` builds. -/
lemma defaultScaleRatios_toReal :
    defaultScaleRatios.map ScaleValue.toReal = initializeDefaultScale := by
  simp only [defaultScaleRatios, initializeDefaultScale, List.map_append, List.map_cons,
    List.map_nil, List.map_map]
  congr 1
  · congr 1
    · simpa using ofInt_toReal 1
    · refine List.map_congr_left fun i _ => ?_
      simpa using cents_nat_toReal i
  · simpa using ofInt_toReal 2

/-- C9: the default-scale initializer produces exactly the 13-entry
12-tone equal-temperament table `[2^(0/12), ..., 2^(11/12), 2]`, with
first entry 1 and last entry 2. -/
theorem c9_default_scale_is_12_tet :
    initializeDefaultScale
        = ((List.range 12).map fun (i : ℕ) => (2 : ℝ) ^ ((i : ℝ) / 12)) ++ [2]
    ∧ initializeDefaultScale.length = 13
    ∧ initializeDefaultScale.getD 0 0 = 1
    ∧ initializeDefaultScale.getLast? = some 2 := by
  have hr : List.range 12 = [0, 1, 2, 3, 4, 5, 6, 7, 8, 9, 10, 11] := by decide
  have hr' : List.range' 1 11 = [1, 2, 3, 4, 5, 6, 7, 8, 9, 10, 11] := by decide
  refine ⟨?_, ?_, ?_, ?_⟩
  · rw [initializeDefaultScale, hr, hr']
    simp only [List.map_cons, List.map_nil]
    norm_num [Real.rpow_zero]
  · simp [initializeDefaultScale]
  · simp [initializeDefaultScale]
  · rw [initializeDefaultScale, List.getLast?_concat]

/-! ## The note-state tracker -/

/-- A call the tracker makes on the external audio capability, tagged
with the note index it was made for (`sound.stop()` in `stopNote`,
`sound.rate(ratio); sound.play()` in `playNote`). -/
inductive AudioEvent where
  | play (i : ℤ)
  | stop (i : ℤ)
deriving DecidableEq

/-- The tracker's mutable globals: the `isPlaying` map (a JavaScript
object whose absent keys read as falsy) and the `sampleLoaded` flag. -/
structure NoteState where
  isPlaying : ℤ → Bool
  sampleLoaded : Bool

/-- Embedding of `stopNote(midiNote)` (src/AUSampler.js:271-276): when
the note is marked playing, issue a stop call and unmark it; otherwise do
nothing.  Returns the new state and the audio calls issued. -/
def stopNote (s : NoteState) (i : ℤ) : NoteState × List AudioEvent :=
  if s.isPlaying i then
    ({ s with isPlaying := fun j => if j = i then false else s.isPlaying j },
      [AudioEvent.stop i])
  else (s, [])

/-- Embedding of `playNote(midiNote)` (src/AUSampler.js:254-265): no-op
without a loaded sample; stop first when the note is already playing;
then issue the play call and mark the note playing. -/
def playNote (s : NoteState) (i : ℤ) : NoteState × List AudioEvent :=
  if ¬ s.sampleLoaded then (s, [])
  else
    let sp := if s.isPlaying i then stopNote s i else (s, [])
    ({ sp.1 with isPlaying := fun j => if j = i then true else sp.1.isPlaying j },
      sp.2 ++ [AudioEvent.play i])

/-- One externally triggered tracker operation: a key/pointer note-on or
note-off, or completion of a sample load (which sets `sampleLoaded`). -/
inductive NoteOp where
  | noteOn (i : ℤ)
  | noteOff (i : ℤ)
  | loadSample

/-- Effect of one tracker operation. -/
def stepNote (s : NoteState) : NoteOp → NoteState × List AudioEvent
  | .noteOn i => playNote s i
  | .noteOff i => stopNote s i
  | .loadSample => ({ s with sampleLoaded := true }, [])

/-- Run of a sequence of tracker operations, accumulating the audio
calls. -/
def runNotes (s : NoteState) : List NoteOp → NoteState × List AudioEvent
  | [] => (s, [])
  | op :: ops =>
    let r1 := stepNote s op
    let r2 := runNotes r1.1 ops
    (r2.1, r1.2 ++ r2.2)

/-- The initial state: nothing playing, no sample loaded. -/
def initialNoteState : NoteState := ⟨fun _ => false, false⟩

/-- Effect of one audio call on "the engine has been told note `i` is
playing". -/
def applyEvent (i : ℤ) (b : Bool) (e : AudioEvent) : Bool :=
  match e with
  | .play j => if j = i then true else b
  | .stop j => if j = i then false else b

/-- After the calls in `log`, the audio engine has been told to play
note `i` and has not since been told to stop it. -/
def toldPlaying (log : List AudioEvent) (i : ℤ) : Bool :=
  log.foldl (applyEvent i) false

lemma stepNote_isPlaying (s : NoteState) (op : NoteOp) (i : ℤ) :
    (stepNote s op).1.isPlaying i
      = ((stepNote s op).2).foldl (applyEvent i) (s.isPlaying i) := by
  cases op with
  | noteOn t =>
      by_cases hs : s.sampleLoaded
      · by_cases hit : t = i
        · subst hit
          by_cases hp : s.isPlaying t <;>
            simp [stepNote, playNote, stopNote, applyEvent, hs, hp]
        · have hit' : ¬ i = t := fun h => hit h.symm
          by_cases hp : s.isPlaying t <;>
            simp [stepNote, playNote, stopNote, applyEvent, hs, hp, hit, hit']
      · simp [stepNote, playNote, hs]
  | noteOff t =>
      by_cases hit : t = i
      · subst hit
        by_cases hp : s.isPlaying t <;>
          simp [stepNote, stopNote, applyEvent, hp]
      · have hit' : ¬ i = t := fun h => hit h.symm
        by_cases hp : s.isPlaying t <;>
          simp [stepNote, stopNote, applyEvent, hp, hit, hit']
  | loadSample => simp [stepNote]

lemma runNotes_isPlaying (ops : List NoteOp) (s : NoteState) (i : ℤ) :
    (runNotes s ops).1.isPlaying i
      = ((runNotes s ops).2).foldl (applyEvent i) (s.isPlaying i) := by
  induction ops generalizing s with
  | nil => rfl
  | cons op ops ih =>
      simp only [runNotes, List.foldl_append]
      rw [← stepNote_isPlaying]
      exact ih _

/-- C5: at every state reachable from the initial state by tracker
operations, a note index is marked playing (engaged) exactly when the
audio engine has been told to play it and has not since been told to
stop it by this tracker. -/
theorem c5_engaged_iff_told_playing (ops : List NoteOp) (i : ℤ) :
    (runNotes initialNoteState ops).1.isPlaying i
      = toldPlaying (runNotes initialNoteState ops).2 i := by
  rw [toldPlaying, runNotes_isPlaying]
  rfl

/-- C6: calling `playNote i` while `i` is already marked playing and a
sample is loaded issues exactly one stop call followed by exactly one
play call for `i`, and leaves `i` marked playing. -/
theorem c6_retrigger_stop_then_play (s : NoteState) (i : ℤ)
    (hp : s.isPlaying i = true) (hs : s.sampleLoaded = true) :
    (playNote s i).2 = [AudioEvent.stop i, AudioEvent.play i]
    ∧ (playNote s i).1.isPlaying i = true := by
  simp [playNote, stopNote, hp, hs]

/-- A concrete tracker state with a sample loaded and note 60 playing. -/
def engagedAt60 : NoteState := ⟨fun j => decide (j = 60), true⟩

/-- C6 witness at the concrete engaged state. -/
theorem c6_witness :
    engagedAt60.isPlaying 60 = true ∧ engagedAt60.sampleLoaded = true
    ∧ (playNote engagedAt60 60).2 = [AudioEvent.stop 60, AudioEvent.play 60]
    ∧ (playNote engagedAt60 60).1.isPlaying 60 = true :=
  ⟨by decide, rfl,
    (c6_retrigger_stop_then_play engagedAt60 60 (by decide) rfl).1,
    (c6_retrigger_stop_then_play engagedAt60 60 (by decide) rfl).2⟩

/-- C7: `stopNote` is idempotent: the second of two consecutive calls
changes nothing and issues no audio call; a single call issues exactly
one stop call when the note was playing and is a silent no-op when it was
idle. -/
theorem c7_stopNote_idempotent (s : NoteState) (i : ℤ) :
    (stopNote (stopNote s i).1 i).1 = (stopNote s i).1
    ∧ (stopNote (stopNote s i).1 i).2 = []
    ∧ (s.isPlaying i = true → (stopNote s i).2 = [AudioEvent.stop i])
    ∧ (s.isPlaying i = false → (stopNote s i).2 = [] ∧ (stopNote s i).1 = s) := by
  by_cases hp : s.isPlaying i
  · refine ⟨?_, ?_, fun _ => by simp [stopNote, hp], fun h => by rw [hp] at h; cases h⟩
    · simp [stopNote, hp]
    · simp [stopNote, hp]
  · refine ⟨?_, ?_, fun h => absurd h (by simpa using hp), fun _ => by simp [stopNote, hp]⟩
    · simp [stopNote, hp]
    · simp [stopNote, hp]

/-- A concrete tracker state with a sample loaded and nothing playing. -/
def idleTracker : NoteState := ⟨fun _ => false, true⟩

/-- C7 witness: double stop at an engaged state, and stop at an idle
state. -/
theorem c7_witness :
    (stopNote engagedAt60 60).2 = [AudioEvent.stop 60]
    ∧ (stopNote (stopNote engagedAt60 60).1 60).2 = []
    ∧ (stopNote idleTracker 60).2 = [] ∧ (stopNote idleTracker 60).1 = idleTracker :=
  ⟨(c7_stopNote_idempotent engagedAt60 60).2.2.1 (by decide),
    (c7_stopNote_idempotent engagedAt60 60).2.1,
    (c7_stopNote_idempotent idleTracker 60).2.2.2 rfl⟩

/-! ## The keyboard input router -/

/-- A JavaScript value as seen by the key handlers: `undefined`, `null`,
or a number. -/
inductive JSVal where
  | undef
  | null
  | num (n : ℤ)
deriving DecidableEq

/-- The keyboard-to-MIDI mapping table `KEYBOARD_MAP`
(src/AUSampler.js:32-46). -/
def KEYBOARD_MAP : List (List Char × ℤ) :=
  [("a".data, 60), ("w".data, 61), ("s".data, 62), ("e".data, 63), ("d".data, 64),
   ("f".data, 65), ("t".data, 66), ("g".data, 67), ("y".data, 68), ("h".data, 69),
   ("u".data, 70), ("j".data, 71), ("k".data, 72)]

/-- JavaScript property lookup `KEYBOARD_MAP[k]`: the mapped number, or
`undefined` when the key is absent. -/
def keyboardLookup (k : List Char) : JSVal :=
  match KEYBOARD_MAP.find? (fun p => decide (p.1 = k)) with
  | some p => JSVal.num p.2
  | none => JSVal.undef

/-- The JavaScript guard `note !== null`: strict inequality against
`null` is false only for `null` itself — in particular
`undefined !== null` is true. -/
def jsStrictNeNull : JSVal → Bool
  | .null => false
  | _ => true

/-- `Set.prototype.add`: append when not already present. -/
def setAdd (s : List JSVal) (v : JSVal) : List JSVal :=
  if v ∈ s then s else s ++ [v]

/-- `Set.prototype.delete`: remove the value. -/
def setDelete (s : List JSVal) (v : JSVal) : List JSVal :=
  s.filter (fun w => decide (w ≠ v))

/-- Embedding of `keyPressed()` (src/AUSampler.js:380-386): look the
lowercased key up; if the result is not strictly `null`, add it to
`pressedKeys` and call `playNote` with it.  Returns the new pressed set
and the argument `playNote` was called with (when it was). -/
def keyPressed (pressedKeys : List JSVal) (key : List Char) : List JSVal × Option JSVal :=
  let note := keyboardLookup (key.map Char.toLower)
  if jsStrictNeNull note then (setAdd pressedKeys note, some note)
  else (pressedKeys, none)

/-- Embedding of `keyReleased()` (src/AUSampler.js:388-394): look the
lowercased key up; if the result is not strictly `null`, delete it from
`pressedKeys` and call `stopNote` with it. -/
def keyReleased (pressedKeys : List JSVal) (key : List Char) : List JSVal × Option JSVal :=
  let note := keyboardLookup (key.map Char.toLower)
  if jsStrictNeNull note then (setDelete pressedKeys note, some note)
  else (pressedKeys, none)

/-- C10: for every pressed key whose lowercased form is not in
`KEYBOARD_MAP`, the lookup yields `undefined`, the `note !== null` guard
still passes, and the key-press handler adds `undefined` to the pressed
set and invokes `playNote` with it (and the key-release handler likewise
invokes `stopNote` with it): unmapped keys are not filtered out as
no-ops. -/
theorem c10_unmapped_key_not_filtered (pressedKeys : List JSVal) (key : List Char)
    (h : keyboardLookup (key.map Char.toLower) = JSVal.undef) :
    jsStrictNeNull (keyboardLookup (key.map Char.toLower)) = true
    ∧ (keyPressed pressedKeys key).2 = some JSVal.undef
    ∧ JSVal.undef ∈ (keyPressed pressedKeys key).1
    ∧ (keyReleased pressedKeys key).2 = some JSVal.undef := by
  refine ⟨by rw [h]; rfl, ?_, ?_, ?_⟩
  · simp [keyPressed, h, jsStrictNeNull]
  · simp only [keyPressed, h]
    by_cases hmem : JSVal.undef ∈ pressedKeys <;>
      simp [jsStrictNeNull, setAdd, hmem]
  · simp [keyReleased, h, jsStrictNeNull]

/-- C10 witness at the unmapped key `z` with an empty pressed set. -/
theorem c10_witness :
    keyboardLookup ("z".data.map Char.toLower) = JSVal.undef
    ∧ (keyPressed [] "z".data).2 = some JSVal.undef
    ∧ JSVal.undef ∈ (keyPressed [] "z".data).1
    ∧ (keyReleased [] "z".data).2 = some JSVal.undef :=
  ⟨by decide,
    (c10_unmapped_key_not_filtered [] "z".data (by decide)).2.1,
    (c10_unmapped_key_not_filtered [] "z".data (by decide)).2.2.1,
    (c10_unmapped_key_not_filtered [] "z".data (by decide)).2.2.2⟩

end AUSampler
